import Mathlib

/-!
Verification development for the pizza-ordering console application
(`app/app.py`).  The database tables are embedded as Lean lists, SQL
queries as pure functions over them, and each feature
(`place_order`, `mark_delivered`, `ensure_statuses`, …) as a state
transformer `DBState → … → DBState × result`.  Monetary amounts are
modelled as exact rationals; Python's `round(x, 2)` becomes `round2`.
Timestamps are integers counting minutes, so MySQL's
`INTERVAL 30 MINUTE` is the literal `30`.
-/

namespace PizzaApp

/-- A row of the `CUSTOMER` table.  `BIRTH_DATE` is kept as the
(month, day) pair, which is all `place_order` reads from it. -/
structure Customer where
  customerId : Nat
  firstName : String
  lastName : String
  birthMonth : Nat
  birthDay : Nat
  address : String
  phone : String
  pizzaCount : Nat
deriving DecidableEq

/-- A row of the `v_product_prices` view (id, name, type, final price). -/
structure Product where
  productId : Nat
  productName : String
  productTypeName : String
  finalPrice : ℚ
deriving DecidableEq

/-- A row of the `DISCOUNT_CODE` table. -/
structure DiscountCode where
  discountCodeId : Nat
  code : String
  discountPercent : ℚ
  isUsed : Bool
deriving DecidableEq

/-- A row of the `DELIVERY_PERSON` table; `postals` carries this
courier's rows of the `DELIVERY_PERSON_POSTAL` coverage table. -/
structure DeliveryPerson where
  deliveryPersonId : Nat
  isAvailable : Bool
  postals : List String
deriving DecidableEq

/-- A row of the `ORDERS` table. -/
structure OrderRow where
  orderId : Nat
  createdAt : Int
  totalPrice : ℚ
  discountCodeId : Option Nat
  deliveryPersonId : Nat
  statusId : Nat
  customerId : Nat
  deliveredAt : Option Int
deriving DecidableEq

/-- A row of the `ORDER_ITEM` table (`AMOUNT, PRODUCT_ID, ORDER_ID`). -/
structure OrderItem where
  amount : Nat
  productId : Nat
  orderId : Nat
deriving DecidableEq

/-- A row of the `STATUS` table. -/
structure StatusRow where
  statusId : Nat
  statusName : String
deriving DecidableEq

/-- The whole relational store.  `nextStatusId` / `nextOrderId` model the
auto-increment counters behind `cur.lastrowid`. -/
structure DBState where
  customers : List Customer
  products : List Product
  discountCodes : List DiscountCode
  couriers : List DeliveryPerson
  statuses : List StatusRow
  orders : List OrderRow
  orderItems : List OrderItem
  nextStatusId : Nat
  nextOrderId : Nat
deriving DecidableEq

/-- Python's `round(x, 2)`: round to the nearest multiple of 1/100.
Exact half-cent ties round up here while Python's float `round` is
banker's rounding on an inexact binary value; no property below
evaluates `round2` at a tie. -/
def round2 (q : ℚ) : ℚ := (round (q * 100) : ℤ) / 100

/-- Python's `min` over a nonempty list (`min(pizzas_prices)`). -/
def minList? : List ℚ → Option ℚ
  | [] => none
  | x :: xs => some (match minList? xs with
      | none => x
      | some m => min x m)

/-- `ORDER BY id ASC LIMIT 1` over a list of ids: the least element. -/
def min_id? : List Nat → Option Nat
  | [] => none
  | x :: xs => some (match min_id? xs with
      | none => x
      | some m => min x m)

/-- The labels of the `discounts_applied` entries printed by
`place_order` (the f-string rendering itself is display-only). -/
inductive DiscountLabel where
  | loyalty
  | birthdayPizza
  | birthdayDrink
  | codePct (pct : ℚ)
deriving DecidableEq

/-- Lines 323–349 of `place_order`: apply the three discount tiers in the
fixed order loyalty → birthday → code on the running total, collecting
the `discounts_applied` list, then `max(round(total, 2), 0.0)`. -/
def apply_discounts (base : ℚ) (pizzaCount : Nat) (isBirthday : Bool)
    (pizzasPrices drinksPrices : List ℚ) (codePct : ℚ) :
    ℚ × List (DiscountLabel × ℚ) :=
  let s1 : ℚ × List (DiscountLabel × ℚ) :=
    if pizzaCount ≥ 10 then
      let cut := round2 (base * (10 / 100))
      (base - cut, [(DiscountLabel.loyalty, -cut)])
    else (base, [])
  let s2 : ℚ × List (DiscountLabel × ℚ) :=
    if isBirthday then
      let sa : ℚ × List (DiscountLabel × ℚ) :=
        match minList? pizzasPrices with
        | some freePizza => (s1.1 - freePizza, s1.2 ++ [(DiscountLabel.birthdayPizza, -freePizza)])
        | none => s1
      match minList? drinksPrices with
      | some freeDrink => (sa.1 - freeDrink, sa.2 ++ [(DiscountLabel.birthdayDrink, -freeDrink)])
      | none => sa
    else s1
  let s3 : ℚ × List (DiscountLabel × ℚ) :=
    if codePct > 0 then
      let cut := round2 (s2.1 * (codePct / 100))
      (s2.1 - cut, s2.2 ++ [(DiscountLabel.codePct codePct, -cut)])
    else s2
  (max (round2 s3.1) 0, s3.2)

/-- `re.search(r'(\d{4})\s*[A-Za-z]{0,2}', address)`: since the suffix of
the pattern may be empty, the match is the leftmost run of 4 consecutive
digit characters. -/
def four_digit_scan : List Char → Option (List Char)
  | a :: b :: c :: d :: rest =>
    if a.isDigit && b.isDigit && c.isDigit && d.isDigit then some [a, b, c, d]
    else four_digit_scan (b :: c :: d :: rest)
  | _ => none

/-- `extract_postal_prefix` from the source: `None` on the empty address,
otherwise the first 4 consecutive digits, if any. -/
def extract_postal_pfx (address : String) : Option String :=
  if address = "" then none
  else (four_digit_scan address.toList).map (fun l => String.mk l)

/-- The dict comprehension `{r["STATUS_NAME"]: r["STATUS_ID"] for r in rows}`:
on duplicate names the later row wins, hence `getLast?`. -/
def dict_of_status_rows (rows : List StatusRow) : String → Option Nat :=
  fun name => ((rows.filter (fun r => r.statusName == name)).getLast?).map
    (fun r => r.statusId)

/-- The `need` list of `ensure_statuses`. -/
def status_need : List String := ["CREATED", "IN_PROGRESS", "OUT_FOR_DELIVERY", "DELIVERED"]

/-- One iteration of the `for name in need` loop of `ensure_statuses`:
insert the status when the dict lacks it, recording `lastrowid`. -/
def ensure_statuses_step (acc : DBState × (String → Option Nat)) (name : String) :
    DBState × (String → Option Nat) :=
  match acc.2 name with
  | some _ => acc
  | none =>
    let nid := acc.1.nextStatusId
    ({ acc.1 with
        statuses := acc.1.statuses ++ [⟨nid, name⟩],
        nextStatusId := nid + 1 },
     fun n => if n = name then some nid else acc.2 n)

/-- `ensure_statuses`: read the `STATUS` table into a dict, insert the
missing core statuses, return the updated store and the dict. -/
def ensure_statuses (st : DBState) : DBState × (String → Option Nat) :=
  status_need.foldl ensure_statuses_step (st, dict_of_status_rows st.statuses)

/-- Python `str.split()` (no argument): split on whitespace runs,
discarding empty pieces. -/
def py_words (s : String) : List String :=
  (s.split Char.isWhitespace).filter (fun w => w ≠ "")

/-- Python `str.isdigit()` for ASCII input: nonempty and all digits. -/
def is_py_digit_string (s : String) : Bool :=
  !s.isEmpty && s.toList.all Char.isDigit

/-- `ORDER BY CUSTOMER_ID ASC LIMIT 1` over matching customers. -/
def min_customer? : List Customer → Option Customer
  | [] => none
  | c :: cs => some (match min_customer? cs with
      | none => c
      | some m => if c.customerId ≤ m.customerId then c else m)

/-- `find_customer`: by id when the input is all digits, else by exact
full name, else by first/last/phone with the least id winning. -/
def find_customer (st : DBState) (user_input : String) : Option Customer :=
  if is_py_digit_string user_input then
    st.customers.find? (fun c => c.customerId == user_input.toNat?.getD 0)
  else
    let parts := py_words user_input.trim
    if parts.length ≥ 2 then
      st.customers.find? (fun c =>
        c.firstName ++ " " ++ c.lastName == String.intercalate " " parts)
    else
      min_customer? (st.customers.filter (fun c =>
        c.firstName == user_input || c.lastName == user_input || c.phone == user_input))

/-- `product_price_and_type`: look the product up in `v_product_prices`. -/
def product_price_and_type (st : DBState) (pid : Nat) : Option (ℚ × String × String) :=
  (st.products.find? (fun p => p.productId == pid)).map
    (fun p => (p.finalPrice, p.productTypeName, p.productName))

/-- `SELECT STATUS_ID FROM STATUS WHERE STATUS_NAME='DELIVERED' LIMIT 1`. -/
def delivered_status_id (st : DBState) : Option Nat :=
  (st.statuses.find? (fun r => r.statusName == "DELIVERED")).map (fun r => r.statusId)

/-- The first `NOT EXISTS` subquery of the eligibility conditions: this
courier delivered order `o` within the last 30 minutes. -/
def recently_delivered (now : Int) (dpId : Nat) (o : OrderRow) : Bool :=
  o.deliveryPersonId == dpId &&
    (match o.deliveredAt with
     | some t => decide (t > now - 30)
     | none => false)

/-- The second `NOT EXISTS` subquery: order `o` of this courier is in a
status other than DELIVERED.  When the `STATUS` table has no DELIVERED
row the SQL comparison with the NULL subquery is never true. -/
def active_undelivered (sid? : Option Nat) (dpId : Nat) (o : OrderRow) : Bool :=
  o.deliveryPersonId == dpId &&
    (match sid? with
     | some sid => decide (o.statusId ≠ sid)
     | none => false)

/-- The conjunction `dp.IS_AVAILABLE = 1 AND NOT EXISTS (...) AND NOT
EXISTS (...)` used by both queries of `assign_delivery_person`. -/
def eligible (st : DBState) (now : Int) (dp : DeliveryPerson) : Bool :=
  dp.isAvailable &&
  !(st.orders.any (recently_delivered now dp.deliveryPersonId)) &&
  !(st.orders.any (active_undelivered (delivered_status_id st) dp.deliveryPersonId))

/-- `assign_delivery_person`: try the least-id eligible courier covering
the postal prefix, else fall back to the least-id eligible courier. -/
def assign_delivery_person (st : DBState) (now : Int) (pfx : Option String) :
    Option Nat :=
  let elig := st.couriers.filter (fun dp => eligible st now dp)
  let fallback := min_id? (elig.map (fun dp => dp.deliveryPersonId))
  match pfx with
  | some p =>
    match min_id? ((elig.filter (fun dp => dp.postals.contains p)).map
        (fun dp => dp.deliveryPersonId)) with
    | some i => some i
    | none => fallback
  | none => fallback

/-- `SELECT ... FROM DISCOUNT_CODE WHERE CODE=%s AND IS_USED=0`. -/
def lookup_unused_code (st : DBState) (code : String) : Option DiscountCode :=
  st.discountCodes.find? (fun d => d.code == code && !d.isUsed)

/-- The discount-code block of `place_order` (lines 290–303): on a valid
unused code, mark it used and return its id and percentage; on a blank,
unknown or used code, change nothing and apply no percentage. -/
def consume_code (st : DBState) (code_input : String) : DBState × Option Nat × ℚ :=
  if code_input = "" then (st, none, 0)
  else
    match lookup_unused_code st code_input with
    | some d =>
      ({ st with discountCodes := st.discountCodes.map (fun c =>
           if c.discountCodeId = d.discountCodeId then { c with isUsed := true } else c) },
       some d.discountCodeId, d.discountPercent)
    | none => (st, none, 0)

/-- Accumulator for the `for pid, amt in items` loop of `place_order`:
line items, running base total, and the price buckets for the birthday
discount. -/
structure ItemTotals where
  lineItems : List (String × Nat × ℚ × ℚ)
  totalBase : ℚ
  pizzasPrices : List ℚ
  drinksPrices : List ℚ
deriving DecidableEq

/-- The item loop itself; a product missing from the price view raises,
which the caller turns into a rollback. -/
def compute_items_go (st : DBState) (acc : ItemTotals) :
    List (Nat × Nat) → Option ItemTotals
  | [] => some acc
  | (pid, amt) :: rest =>
    match product_price_and_type st pid with
    | none => none
    | some (price, ptype, pname) =>
      compute_items_go st
        { lineItems := acc.lineItems ++ [(pname, amt, price, price * (amt : ℚ))],
          totalBase := acc.totalBase + price * (amt : ℚ),
          pizzasPrices := acc.pizzasPrices ++
            (if ptype = "Pizza" then List.replicate amt price else []),
          drinksPrices := acc.drinksPrices ++
            (if ptype = "Drink" then List.replicate amt price else []) } rest

/-- Lines 305–321 of `place_order`. -/
def compute_items (st : DBState) (items : List (Nat × Nat)) : Option ItemTotals :=
  compute_items_go st { lineItems := [], totalBase := 0, pizzasPrices := [], drinksPrices := [] } items

/-- `pizzas_ordered`: total quantity over items whose product type is
"Pizza" (re-querying the price view per item). -/
def pizzas_ordered (st : DBState) (items : List (Nat × Nat)) : Nat :=
  (items.map (fun it =>
    match product_price_and_type st it.1 with
    | some (_, ptype, _) => if ptype = "Pizza" then it.2 else 0
    | none => 0)).sum

/-- Outcome of one `place_order` attempt: the printed abort message, or
the confirmation data (order id, final total, `discounts_applied`). -/
inductive PlaceResult where
  | aborted (msg : String)
  | confirmed (orderId : Nat) (total : ℚ) (discounts : List (DiscountLabel × ℚ))
deriving DecidableEq

/-- `place_order`: seed statuses, look the customer up, require items,
assign a courier (Python's `if not delivery_person_id` also treats id 0
as falsy), then run the transaction: consume the code, price the items,
apply the discounts, and atomically write the order row, its items, the
customer's pizza count and the courier's availability.  A pricing
failure rolls back to the post-seeding state. -/
def place_order (st0 : DBState) (now : Int) (today : Nat × Nat)
    (cust_in : String) (items : List (Nat × Nat)) (code_input : String) :
    DBState × PlaceResult :=
  let es := ensure_statuses st0
  let st := es.1
  let created := (es.2 "CREATED").getD 0
  match find_customer st cust_in with
  | none => (st, PlaceResult.aborted "Customer not found.")
  | some cust =>
    if items.isEmpty then (st, PlaceResult.aborted "No items selected. Cancelling.")
    else
      match assign_delivery_person st now (extract_postal_pfx cust.address) with
      | none => (st, PlaceResult.aborted "No available delivery person for your area right now.")
      | some dpid =>
        if dpid = 0 then (st, PlaceResult.aborted "No available delivery person for your area right now.")
        else
          let is_birthday := cust.birthMonth == today.1 && cust.birthDay == today.2
          let cc := consume_code st code_input
          let st1 := cc.1
          match compute_items st1 items with
          | none => (st, PlaceResult.aborted "Order failed and rolled back.")
          | some totals =>
            let ad := apply_discounts totals.totalBase cust.pizzaCount is_birthday
              totals.pizzasPrices totals.drinksPrices cc.2.2
            let oid := st1.nextOrderId
            let st2 : DBState := { st1 with
              orders := st1.orders ++ [⟨oid, now, ad.1, cc.2.1, dpid, created, cust.customerId, none⟩],
              nextOrderId := oid + 1,
              orderItems := st1.orderItems ++ items.map (fun it => ⟨it.2, it.1, oid⟩),
              customers := st1.customers.map (fun c =>
                if c.customerId = cust.customerId then
                  { c with pizzaCount := c.pizzaCount + pizzas_ordered st1 items }
                else c),
              couriers := st1.couriers.map (fun dp =>
                if dp.deliveryPersonId = dpid then { dp with isAvailable := false } else dp) }
            (st2, PlaceResult.confirmed oid ad.1 ad.2)

/-- Outcome of `mark_delivered`. -/
inductive DeliverResult where
  | notFound
  | ok (orderId : Nat) (canEnable : Bool)
deriving DecidableEq

/-- `mark_delivered`: set the order's status to DELIVERED and stamp
`DELIVERED_AT = NOW()`, then re-read that timestamp to decide
`NOW() > DELIVERED_AT + INTERVAL 30 MINUTE`; only then would the
courier's availability be restored. -/
def mark_delivered (st0 : DBState) (now : Int) (oid : Nat) : DBState × DeliverResult :=
  let es := ensure_statuses st0
  let st := es.1
  let delivered := (es.2 "DELIVERED").getD 0
  match st.orders.find? (fun o => o.orderId == oid) with
  | none => (st, DeliverResult.notFound)
  | some o =>
    let dp_id := o.deliveryPersonId
    let st1 : DBState := { st with orders := st.orders.map (fun r =>
        if r.orderId = oid then { r with statusId := delivered, deliveredAt := some now } else r) }
    let d_at := (st1.orders.find? (fun r => r.orderId == oid)).bind (fun r => r.deliveredAt)
    let can_enable := match d_at with
      | some t => decide (now > t + 30)
      | none => false
    let st2 : DBState := if can_enable then
        { st1 with couriers := st1.couriers.map (fun dp =>
            if dp.deliveryPersonId = dp_id then { dp with isAvailable := true } else dp) }
      else st1
    (st2, DeliverResult.ok oid can_enable)

/-- `add_customer`: validate the names and the birth date, then insert
the customer with `PIZZA_COUNT 0`.  The `datetime.strptime` check is
modelled by the boolean `bdate_ok`, quantifying over both outcomes. -/
def add_customer (st : DBState) (first last bdate addr phone : String)
    (bdate_ok : Bool) (bmonth bday : Nat) : DBState × Bool :=
  if first = "" ∨ last = "" then (st, false)
  else if !bdate_ok then (st, false)
  else
    ({ st with customers := st.customers ++
        [⟨(st.customers.map (fun c => c.customerId)).foldl max 0 + 1,
          first, last, bmonth, bday, addr, phone, 0⟩] }, true)

/-! ### Basic list lemmas -/

theorem min_id?_eq_none {l : List Nat} : min_id? l = none ↔ l = [] := by
  cases l <;> simp [min_id?]

theorem min_id?_mem {l : List Nat} {i : Nat} (h : min_id? l = some i) : i ∈ l := by
  induction l generalizing i with
  | nil => simp [min_id?] at h
  | cons x xs ih =>
    rw [min_id?] at h
    rcases hxs : min_id? xs with _ | m <;> rw [hxs] at h <;> simp at h <;> subst h
    · exact List.mem_cons_self _ _
    · rcases min_choice x m with hc | hc <;> rw [hc]
      · exact List.mem_cons_self _ _
      · exact List.mem_cons_of_mem _ (ih hxs)

theorem min_id?_le {l : List Nat} {i : Nat} (h : min_id? l = some i) :
    ∀ x ∈ l, i ≤ x := by
  induction l generalizing i with
  | nil => simp [min_id?] at h
  | cons x xs ih =>
    rw [min_id?] at h
    rcases hxs : min_id? xs with _ | m <;> rw [hxs] at h <;> simp at h <;> subst h
    · intro y hy
      rcases List.mem_cons.mp hy with rfl | hy
      · exact le_refl _
      · rw [min_id?_eq_none] at hxs
        subst hxs
        simp at hy
    · intro y hy
      rcases List.mem_cons.mp hy with rfl | hy
      · exact min_le_left _ _
      · exact le_trans (min_le_right _ _) (ih hxs y hy)

/-! ### `ensure_statuses` lemmas -/

/-- The store components `ensure_statuses` never touches. -/
def SameCore (a b : DBState) : Prop :=
  a.customers = b.customers ∧ a.products = b.products ∧
  a.discountCodes = b.discountCodes ∧ a.couriers = b.couriers ∧
  a.orders = b.orders ∧ a.orderItems = b.orderItems ∧
  a.nextOrderId = b.nextOrderId

theorem sameCore_refl (a : DBState) : SameCore a a :=
  ⟨rfl, rfl, rfl, rfl, rfl, rfl, rfl⟩

theorem sameCore_trans {a b c : DBState} (h1 : SameCore a b) (h2 : SameCore b c) :
    SameCore a c := by
  obtain ⟨e1, e2, e3, e4, e5, e6, e7⟩ := h1
  obtain ⟨f1, f2, f3, f4, f5, f6, f7⟩ := h2
  exact ⟨e1.trans f1, e2.trans f2, e3.trans f3, e4.trans f4, e5.trans f5, e6.trans f6, e7.trans f7⟩

theorem ensure_statuses_step_sameCore (acc : DBState × (String → Option Nat)) (name : String) :
    SameCore (ensure_statuses_step acc name).1 acc.1 := by
  rw [ensure_statuses_step]
  rcases acc.2 name with _ | i
  · exact sameCore_refl _
  · exact sameCore_refl _

theorem foldl_ensure_step_sameCore (l : List String) (acc : DBState × (String → Option Nat)) :
    SameCore (l.foldl ensure_statuses_step acc).1 acc.1 := by
  induction l generalizing acc with
  | nil => exact sameCore_refl _
  | cons n ns ih =>
    rw [List.foldl_cons]
    exact sameCore_trans (ih _) (ensure_statuses_step_sameCore acc n)

theorem ensure_statuses_sameCore (st : DBState) : SameCore (ensure_statuses st).1 st := by
  rw [ensure_statuses]
  exact foldl_ensure_step_sameCore _ _

theorem dict_of_status_rows_append (rows : List StatusRow) (nid : Nat) (name : String) :
    dict_of_status_rows (rows ++ [⟨nid, name⟩]) =
      fun n => if n = name then some nid else dict_of_status_rows rows n := by
  funext n
  rw [dict_of_status_rows, List.filter_append]
  by_cases h : n = name
  · subst h
    simp [List.getLast?_concat]
  · have : (List.filter (fun r => r.statusName == n) [(⟨nid, name⟩ : StatusRow)]) = [] := by
      rw [List.filter_cons_of_neg, List.filter_nil]
      simp only [beq_iff_eq]
      exact fun hc => h hc.symm
    rw [this, List.append_nil, dict_of_status_rows]
    simp [h]

theorem ensure_statuses_step_dictInv {acc : DBState × (String → Option Nat)} (name : String)
    (h : acc.2 = dict_of_status_rows acc.1.statuses) :
    (ensure_statuses_step acc name).2 =
      dict_of_status_rows (ensure_statuses_step acc name).1.statuses := by
  rw [ensure_statuses_step]
  rcases hn : acc.2 name with _ | i
  · simp only
    rw [dict_of_status_rows_append, ← h]
  · exact h

theorem foldl_ensure_step_dictInv (l : List String) (acc : DBState × (String → Option Nat))
    (h : acc.2 = dict_of_status_rows acc.1.statuses) :
    (l.foldl ensure_statuses_step acc).2 =
      dict_of_status_rows (l.foldl ensure_statuses_step acc).1.statuses := by
  induction l generalizing acc with
  | nil => exact h
  | cons n ns ih =>
    rw [List.foldl_cons]
    exact ih _ (ensure_statuses_step_dictInv n h)

theorem ensure_statuses_dictInv (st : DBState) :
    (ensure_statuses st).2 = dict_of_status_rows (ensure_statuses st).1.statuses := by
  rw [ensure_statuses]
  exact foldl_ensure_step_dictInv _ _ rfl

theorem ensure_statuses_step_mono {acc : DBState × (String → Option Nat)} {name m : String}
    {i : Nat} (h : acc.2 m = some i) : (ensure_statuses_step acc name).2 m = some i := by
  rw [ensure_statuses_step]
  rcases hn : acc.2 name with _ | j
  · simp only
    by_cases hm : m = name
    · rw [hm] at h
      rw [h] at hn
      cases hn
    · simp [hm, h]
  · exact h

theorem foldl_ensure_step_mono (l : List String) {acc : DBState × (String → Option Nat)}
    {m : String} {i : Nat} (h : acc.2 m = some i) :
    (l.foldl ensure_statuses_step acc).2 m = some i := by
  induction l generalizing acc with
  | nil => exact h
  | cons n ns ih =>
    rw [List.foldl_cons]
    exact ih (ensure_statuses_step_mono h)

theorem ensure_statuses_step_isSome (acc : DBState × (String → Option Nat)) (name : String) :
    ∃ i, (ensure_statuses_step acc name).2 name = some i := by
  rw [ensure_statuses_step]
  rcases hn : acc.2 name with _ | j
  · exact ⟨acc.1.nextStatusId, by simp⟩
  · exact ⟨j, hn⟩

theorem foldl_ensure_step_covers (l : List String) (acc : DBState × (String → Option Nat)) :
    ∀ n ∈ l, ∃ i, (l.foldl ensure_statuses_step acc).2 n = some i := by
  induction l generalizing acc with
  | nil => intro n hn; simp at hn
  | cons m ms ih =>
    intro n hn
    rw [List.foldl_cons]
    rcases List.mem_cons.mp hn with rfl | hn
    · obtain ⟨i, hi⟩ := ensure_statuses_step_isSome acc n
      exact ⟨i, foldl_ensure_step_mono ms hi⟩
    · exact ih _ n hn

theorem ensure_statuses_step_of_some {acc : DBState × (String → Option Nat)} {name : String}
    {i : Nat} (h : acc.2 name = some i) : ensure_statuses_step acc name = acc := by
  rw [ensure_statuses_step, h]

theorem foldl_ensure_step_of_all_some (l : List String) (acc : DBState × (String → Option Nat))
    (h : ∀ n ∈ l, ∃ i, acc.2 n = some i) : l.foldl ensure_statuses_step acc = acc := by
  induction l generalizing acc with
  | nil => rfl
  | cons m ms ih =>
    rw [List.foldl_cons]
    obtain ⟨i, hi⟩ := h m (List.mem_cons_self _ _)
    rw [ensure_statuses_step_of_some hi]
    exact ih _ (fun n hn => h n (List.mem_cons_of_mem _ hn))

theorem dict_of_status_rows_mem {rows : List StatusRow} {n : String} {i : Nat}
    (h : dict_of_status_rows rows n = some i) :
    ∃ r ∈ rows, r.statusName = n ∧ r.statusId = i := by
  rw [dict_of_status_rows] at h
  rcases hg : (rows.filter (fun r => r.statusName == n)).getLast? with _ | r
  · rw [hg] at h
    cases h
  · rw [hg] at h
    have hmem : r ∈ rows.filter (fun r => r.statusName == n) := by
      obtain ⟨hne, heq⟩ := List.mem_getLast?_eq_getLast (x := r)
        (by rw [Option.mem_def]; exact hg)
      exact heq ▸ List.getLast_mem hne
    have hfil := List.mem_filter.mp hmem
    refine ⟨r, hfil.1, by simpa using hfil.2, ?_⟩
    simpa using h

/-- Claim C10: seeding the status vocabulary is idempotent.  One run of
`ensure_statuses` makes all four core statuses exist; a second run
changes nothing — it inserts no row and returns the same
name-to-identity mapping (in fact the same state-dict pair). -/
theorem ensure_statuses_idempotent (st : DBState) :
    ensure_statuses (ensure_statuses st).1 = ensure_statuses st ∧
    (∃ r ∈ (ensure_statuses st).1.statuses, r.statusName = "CREATED") ∧
    (∃ r ∈ (ensure_statuses st).1.statuses, r.statusName = "IN_PROGRESS") ∧
    (∃ r ∈ (ensure_statuses st).1.statuses, r.statusName = "OUT_FOR_DELIVERY") ∧
    (∃ r ∈ (ensure_statuses st).1.statuses, r.statusName = "DELIVERED") := by
  have hdict := ensure_statuses_dictInv st
  have hcov : ∀ n ∈ status_need, ∃ i, (ensure_statuses st).2 n = some i := by
    rw [ensure_statuses]
    exact foldl_ensure_step_covers _ _
  have hmem : ∀ n ∈ status_need, ∃ r ∈ (ensure_statuses st).1.statuses, r.statusName = n := by
    intro n hn
    obtain ⟨i, hi⟩ := hcov n hn
    rw [hdict] at hi
    obtain ⟨r, hr, hrn, _⟩ := dict_of_status_rows_mem hi
    exact ⟨r, hr, hrn⟩
  refine ⟨?_, hmem "CREATED" (by simp [status_need]),
    hmem "IN_PROGRESS" (by simp [status_need]),
    hmem "OUT_FOR_DELIVERY" (by simp [status_need]),
    hmem "DELIVERED" (by simp [status_need])⟩
  have hsecond : ensure_statuses (ensure_statuses st).1 =
      status_need.foldl ensure_statuses_step
        ((ensure_statuses st).1, (ensure_statuses st).2) := by
    rw [ensure_statuses, ← hdict]
  rw [hsecond]
  have : (((ensure_statuses st).1, (ensure_statuses st).2) :
      DBState × (String → Option Nat)) = ensure_statuses st := rfl
  rw [this]
  exact foldl_ensure_step_of_all_some _ _ hcov

/-! ### Courier assignment (claims C3, C4) -/

theorem mem_couriers_of_assign {st : DBState} {now : Int} {pfx : Option String} {i : Nat}
    (h : assign_delivery_person st now pfx = some i) :
    ∃ dp ∈ st.couriers, dp.deliveryPersonId = i ∧ eligible st now dp = true := by
  rw [assign_delivery_person.eq_def] at h
  have fallback_case :
      min_id? ((st.couriers.filter (fun dp => eligible st now dp)).map
        (fun dp => dp.deliveryPersonId)) = some i →
      ∃ dp ∈ st.couriers, dp.deliveryPersonId = i ∧ eligible st now dp = true := by
    intro hf
    obtain ⟨dp, hdp, hid⟩ := List.mem_map.mp (min_id?_mem hf)
    have hfil := List.mem_filter.mp hdp
    exact ⟨dp, hfil.1, hid, hfil.2⟩
  rcases pfx with _ | p
  · exact fallback_case h
  · simp only at h
    rcases hm : min_id? (((st.couriers.filter (fun dp => eligible st now dp)).filter
        (fun dp => dp.postals.contains p)).map (fun dp => dp.deliveryPersonId)) with _ | j
    · rw [hm] at h
      exact fallback_case h
    · rw [hm] at h
      cases h
      obtain ⟨dp, hdp, hid⟩ := List.mem_map.mp (min_id?_mem hm)
      have h1 := List.mem_filter.mp hdp
      have h2 := List.mem_filter.mp h1.1
      exact ⟨dp, h2.1, hid, h2.2⟩

/-- Claim C3: every courier returned by `assign_delivery_person`
satisfies the full eligibility predicate; in particular (given that a
DELIVERED status row exists, as `place_order` guarantees via
`ensure_statuses`) it has no order in a non-DELIVERED status, and it
has no order delivered within the last 30 minutes. -/
theorem assign_returns_eligible (st : DBState) (now : Int) (pfx : Option String) (i : Nat)
    (h : assign_delivery_person st now pfx = some i) :
    (∃ dp ∈ st.couriers, dp.deliveryPersonId = i ∧ eligible st now dp = true) ∧
    (∀ o ∈ st.orders, o.deliveryPersonId = i → ∀ t, o.deliveredAt = some t →
      ¬(t > now - 30)) ∧
    (∀ sid, delivered_status_id st = some sid →
      ∀ o ∈ st.orders, o.deliveryPersonId = i → o.statusId = sid) := by
  obtain ⟨dp, hdp, hid, helig⟩ := mem_couriers_of_assign h
  rw [eligible, Bool.and_eq_true, Bool.and_eq_true] at helig
  obtain ⟨⟨havail, hcool⟩, hactive⟩ := helig
  rw [Bool.not_eq_true', List.any_eq_false] at hcool hactive
  refine ⟨⟨dp, hdp, hid, by
    rw [eligible, Bool.and_eq_true, Bool.and_eq_true]
    refine ⟨⟨havail, ?_⟩, ?_⟩ <;> rw [Bool.not_eq_true', List.any_eq_false]
    · exact hcool
    · exact hactive⟩, ?_, ?_⟩
  · intro o ho hoid t ht hlt
    have := hcool o ho
    rw [recently_delivered.eq_def, hoid, hid, ht] at this
    simp at this
    exact absurd hlt (by simpa using this)
  · intro sid hsid o ho hoid
    have := hactive o ho
    rw [active_undelivered.eq_def, hoid, hid, hsid] at this
    simpa using this

theorem assign_none_of_no_eligible {st : DBState} {now : Int} (pfx : Option String)
    (h : ∀ dp ∈ st.couriers, eligible st now dp = false) :
    assign_delivery_person st now pfx = none := by
  have hfil : st.couriers.filter (fun dp => eligible st now dp) = [] := by
    rw [List.filter_eq_nil_iff]
    intro dp hdp
    rw [h dp hdp]
    exact Bool.false_ne_true
  rw [assign_delivery_person.eq_def, hfil]
  rcases pfx with _ | p <;> simp [min_id?]

/-- Claim C4: courier selection is deterministic and ordered.  With a
postal prefix and at least one eligible covering courier, the returned
courier is an eligible covering one with the least identity; with a
prefix that no eligible courier covers, or with no prefix at all, the
returned courier is an eligible one with the least identity overall;
and the query returns no courier exactly when no courier is eligible,
in which case `place_order` aborts the attempt. -/
theorem assign_deterministic_lowest_id (st : DBState) (now : Int) :
    (∀ p, (∃ dp ∈ st.couriers, eligible st now dp = true ∧ dp.postals.contains p = true) →
      ∃ i, assign_delivery_person st now (some p) = some i ∧
        (∃ dp ∈ st.couriers, dp.deliveryPersonId = i ∧ eligible st now dp = true ∧
          dp.postals.contains p = true) ∧
        (∀ dp ∈ st.couriers, eligible st now dp = true → dp.postals.contains p = true →
          i ≤ dp.deliveryPersonId)) ∧
    (∀ p, (∀ dp ∈ st.couriers, eligible st now dp = true →
        dp.postals.contains p = false) →
      (∃ dp ∈ st.couriers, eligible st now dp = true) →
      ∃ i, assign_delivery_person st now (some p) = some i ∧
        (∃ dp ∈ st.couriers, dp.deliveryPersonId = i ∧ eligible st now dp = true) ∧
        (∀ dp ∈ st.couriers, eligible st now dp = true → i ≤ dp.deliveryPersonId)) ∧
    ((∃ dp ∈ st.couriers, eligible st now dp = true) →
      ∃ i, assign_delivery_person st now none = some i ∧
        (∃ dp ∈ st.couriers, dp.deliveryPersonId = i ∧ eligible st now dp = true) ∧
        (∀ dp ∈ st.couriers, eligible st now dp = true → i ≤ dp.deliveryPersonId)) ∧
    (∀ pfx, assign_delivery_person st now pfx = none ↔
      ∀ dp ∈ st.couriers, eligible st now dp = false) ∧
    (∀ st0 today cust_in items code_input,
      (∀ cust, find_customer (ensure_statuses st0).1 cust_in = some cust →
        assign_delivery_person (ensure_statuses st0).1 now
          (extract_postal_pfx cust.address) = none) →
      ∃ m, (place_order st0 now today cust_in items code_input).2 =
        PlaceResult.aborted m) := by
  refine ⟨?_, ?_, ?_, ?_, ?_⟩
  · rintro p ⟨dp0, hdp0, helig0, hcov0⟩
    have hmem0 : dp0.deliveryPersonId ∈
        ((st.couriers.filter (fun dp => eligible st now dp)).filter
          (fun dp => dp.postals.contains p)).map (fun dp => dp.deliveryPersonId) :=
      List.mem_map.mpr ⟨dp0,
        List.mem_filter.mpr ⟨List.mem_filter.mpr ⟨hdp0, helig0⟩, hcov0⟩, rfl⟩
    rcases hm : min_id? (((st.couriers.filter (fun dp => eligible st now dp)).filter
        (fun dp => dp.postals.contains p)).map (fun dp => dp.deliveryPersonId)) with _ | i
    · rw [min_id?_eq_none] at hm
      rw [hm] at hmem0
      simp at hmem0
    · refine ⟨i, ?_, ?_, ?_⟩
      · rw [assign_delivery_person.eq_def]
        simp only
        rw [hm]
      · obtain ⟨dp, hdp, hid⟩ := List.mem_map.mp (min_id?_mem hm)
        have h1 := List.mem_filter.mp hdp
        have h2 := List.mem_filter.mp h1.1
        exact ⟨dp, h2.1, hid, h2.2, h1.2⟩
      · intro dp hdp helig hcov
        exact min_id?_le hm _ (List.mem_map.mpr ⟨dp,
          List.mem_filter.mpr ⟨List.mem_filter.mpr ⟨hdp, helig⟩, hcov⟩, rfl⟩)
  · rintro p hnocov ⟨dp0, hdp0, helig0⟩
    have hmem0 : dp0.deliveryPersonId ∈
        (st.couriers.filter (fun dp => eligible st now dp)).map
          (fun dp => dp.deliveryPersonId) :=
      List.mem_map.mpr ⟨dp0, List.mem_filter.mpr ⟨hdp0, helig0⟩, rfl⟩
    have hempty : (st.couriers.filter (fun dp => eligible st now dp)).filter
        (fun dp => dp.postals.contains p) = [] := by
      rw [List.filter_eq_nil_iff]
      intro dp hdp
      rw [hnocov dp (List.mem_filter.mp hdp).1 (List.mem_filter.mp hdp).2]
      exact Bool.false_ne_true
    rcases hm : min_id? ((st.couriers.filter (fun dp => eligible st now dp)).map
        (fun dp => dp.deliveryPersonId)) with _ | i
    · rw [min_id?_eq_none] at hm
      rw [hm] at hmem0
      simp at hmem0
    · refine ⟨i, ?_, ?_, ?_⟩
      · rw [assign_delivery_person.eq_def]
        simp only
        rw [hempty]
        simp only [List.map_nil]
        exact hm
      · obtain ⟨dp, hdp, hid⟩ := List.mem_map.mp (min_id?_mem hm)
        have h1 := List.mem_filter.mp hdp
        exact ⟨dp, h1.1, hid, h1.2⟩
      · intro dp hdp helig
        exact min_id?_le hm _ (List.mem_map.mpr ⟨dp,
          List.mem_filter.mpr ⟨hdp, helig⟩, rfl⟩)
  · rintro ⟨dp0, hdp0, helig0⟩
    have hmem0 : dp0.deliveryPersonId ∈
        (st.couriers.filter (fun dp => eligible st now dp)).map
          (fun dp => dp.deliveryPersonId) :=
      List.mem_map.mpr ⟨dp0, List.mem_filter.mpr ⟨hdp0, helig0⟩, rfl⟩
    rcases hm : min_id? ((st.couriers.filter (fun dp => eligible st now dp)).map
        (fun dp => dp.deliveryPersonId)) with _ | i
    · rw [min_id?_eq_none] at hm
      rw [hm] at hmem0
      simp at hmem0
    · refine ⟨i, ?_, ?_, ?_⟩
      · rw [assign_delivery_person.eq_def]
        simp only
        rw [hm]
      · obtain ⟨dp, hdp, hid⟩ := List.mem_map.mp (min_id?_mem hm)
        have h1 := List.mem_filter.mp hdp
        exact ⟨dp, h1.1, hid, h1.2⟩
      · intro dp hdp helig
        exact min_id?_le hm _ (List.mem_map.mpr ⟨dp,
          List.mem_filter.mpr ⟨hdp, helig⟩, rfl⟩)
  · intro pfx
    constructor
    · intro h dp hdp
      cases hb : eligible st now dp with
      | false => rfl
      | true =>
        exfalso
        have hmem0 : dp.deliveryPersonId ∈
            (st.couriers.filter (fun dp => eligible st now dp)).map
              (fun dp => dp.deliveryPersonId) :=
          List.mem_map.mpr ⟨dp, List.mem_filter.mpr ⟨hdp, hb⟩, rfl⟩
        rcases hm : min_id? ((st.couriers.filter (fun dp => eligible st now dp)).map
            (fun dp => dp.deliveryPersonId)) with _ | i
        · rw [min_id?_eq_none] at hm
          rw [hm] at hmem0
          simp at hmem0
        · rcases pfx with _ | p
          · rw [assign_delivery_person.eq_def] at h
            simp only at h
            rw [hm] at h
            cases h
          · rw [assign_delivery_person.eq_def] at h
            simp only at h
            rcases hm2 : min_id? (((st.couriers.filter (fun dp => eligible st now dp)).filter
                (fun dp => dp.postals.contains p)).map (fun dp => dp.deliveryPersonId)) with _ | j
            · rw [hm2, hm] at h
              cases h
            · rw [hm2] at h
              cases h
    · exact fun h => assign_none_of_no_eligible pfx h
  · intro st0 today cust_in items code_input hassign
    rw [place_order]
    rcases hfc : find_customer (ensure_statuses st0).1 cust_in with _ | cust
    · exact ⟨_, rfl⟩
    · rcases items with _ | ⟨it, rest⟩
      · exact ⟨_, rfl⟩
      · dsimp only
        rw [hassign cust hfc]
        exact ⟨_, rfl⟩

/-- Fixture: courier 1 covers "1234" but has an active (CREATED) order,
courier 2 covers "1234" and is idle, courier 3 is idle with no coverage. -/
def stAssign : DBState :=
  { customers := [],
    products := [],
    discountCodes := [],
    couriers := [⟨1, true, ["1234"]⟩, ⟨2, true, ["1234"]⟩, ⟨3, true, []⟩],
    statuses := [⟨1, "CREATED"⟩, ⟨2, "IN_PROGRESS"⟩, ⟨3, "OUT_FOR_DELIVERY"⟩, ⟨4, "DELIVERED"⟩],
    orders := [⟨1, 0, 10, none, 1, 1, 1, none⟩],
    orderItems := [],
    nextStatusId := 5,
    nextOrderId := 2 }

theorem assign_returns_eligible_witness :
    ∃ dp ∈ stAssign.couriers, dp.deliveryPersonId = 2 ∧ eligible stAssign 100 dp = true :=
  (assign_returns_eligible stAssign 100 (some "1234") 2 (by decide)).1

theorem assign_deterministic_lowest_id_witness :
    (∃ i, assign_delivery_person stAssign 100 (some "1234") = some i ∧
      (∃ dp ∈ stAssign.couriers, dp.deliveryPersonId = i ∧ eligible stAssign 100 dp = true ∧
        dp.postals.contains "1234" = true) ∧
      (∀ dp ∈ stAssign.couriers, eligible stAssign 100 dp = true →
        dp.postals.contains "1234" = true → i ≤ dp.deliveryPersonId)) ∧
    (∃ i, assign_delivery_person stAssign 100 (some "9999") = some i ∧
      (∃ dp ∈ stAssign.couriers, dp.deliveryPersonId = i ∧ eligible stAssign 100 dp = true) ∧
      (∀ dp ∈ stAssign.couriers, eligible stAssign 100 dp = true →
        i ≤ dp.deliveryPersonId)) :=
  ⟨(assign_deterministic_lowest_id stAssign 100).1 "1234" (by decide),
   (assign_deterministic_lowest_id stAssign 100).2.1 "9999" (by decide) (by decide)⟩

/-! ### Aborted order placement leaves the store unchanged (claim C5) -/

/-- Claim C5: when order placement hits a missing customer, an empty item
list or a failed courier assignment, the attempt is rejected before the
transaction: no order row, no order items, no pizza-count change, no
discount-code consumption and no courier-availability change are
persisted (only the lazy status seeding of `ensure_statuses` may run). -/
theorem place_order_abort_no_writes (st0 : DBState) (now : Int) (today : Nat × Nat)
    (cust_in : String) (items : List (Nat × Nat)) (code_input : String)
    (habort :
      find_customer (ensure_statuses st0).1 cust_in = none ∨
      items = [] ∨
      (∀ cust, find_customer (ensure_statuses st0).1 cust_in = some cust →
        assign_delivery_person (ensure_statuses st0).1 now
          (extract_postal_pfx cust.address) = none)) :
    (place_order st0 now today cust_in items code_input).1.orders = st0.orders ∧
    (place_order st0 now today cust_in items code_input).1.orderItems = st0.orderItems ∧
    (place_order st0 now today cust_in items code_input).1.customers = st0.customers ∧
    (place_order st0 now today cust_in items code_input).1.discountCodes = st0.discountCodes ∧
    (place_order st0 now today cust_in items code_input).1.couriers = st0.couriers ∧
    ∃ m, (place_order st0 now today cust_in items code_input).2 = PlaceResult.aborted m := by
  obtain ⟨hcust, hprod, hcode, hcour, hord, hoi, hnext⟩ := ensure_statuses_sameCore st0
  rw [place_order]
  rcases hfc : find_customer (ensure_statuses st0).1 cust_in with _ | cust
  · exact ⟨hord, hoi, hcust, hcode, hcour, _, rfl⟩
  · rcases habort with h | h | h
    · rw [hfc] at h
      cases h
    · subst h
      exact ⟨hord, hoi, hcust, hcode, hcour, _, rfl⟩
    · rcases items with _ | ⟨it, rest⟩
      · exact ⟨hord, hoi, hcust, hcode, hcour, _, rfl⟩
      · dsimp only
        rw [h cust hfc]
        exact ⟨hord, hoi, hcust, hcode, hcour, _, rfl⟩

/-- Fixture: a store with no customers, one product, one idle courier. -/
def stNoCust : DBState :=
  { customers := [],
    products := [⟨1, "Margherita", "Pizza", 8⟩],
    discountCodes := [],
    couriers := [⟨1, true, []⟩],
    statuses := [⟨1, "CREATED"⟩, ⟨2, "IN_PROGRESS"⟩, ⟨3, "OUT_FOR_DELIVERY"⟩, ⟨4, "DELIVERED"⟩],
    orders := [],
    orderItems := [],
    nextStatusId := 5,
    nextOrderId := 1 }

theorem place_order_abort_no_writes_witness :
    (place_order stNoCust 0 (1, 1) "7" [(1, 1)] "").1.orders = stNoCust.orders ∧
    (place_order stNoCust 0 (1, 1) "7" [(1, 1)] "").1.orderItems = stNoCust.orderItems ∧
    (place_order stNoCust 0 (1, 1) "7" [(1, 1)] "").1.customers = stNoCust.customers ∧
    (place_order stNoCust 0 (1, 1) "7" [(1, 1)] "").1.discountCodes = stNoCust.discountCodes ∧
    (place_order stNoCust 0 (1, 1) "7" [(1, 1)] "").1.couriers = stNoCust.couriers ∧
    ∃ m, (place_order stNoCust 0 (1, 1) "7" [(1, 1)] "").2 = PlaceResult.aborted m :=
  place_order_abort_no_writes stNoCust 0 (1, 1) "7" [(1, 1)] "" (Or.inl (by decide))

/-! ### Delivery completion (claim C7) -/

theorem find?_map_of_find? {α : Type} (l : List α) (p : α → Bool) (f : α → α)
    (hf : ∀ x, p (f x) = p x) {a : α} (h : l.find? p = some a) :
    (l.map f).find? p = some (f a) := by
  induction l with
  | nil => simp [List.find?] at h
  | cons x xs ih =>
    rw [List.map_cons]
    rcases hx : p x with _ | _
    · rw [List.find?_cons_of_neg _ (by rw [hf]; simp [hx])]
      rw [List.find?_cons_of_neg _ (by simp [hx])] at h
      exact ih h
    · rw [List.find?_cons_of_pos _ (by rw [hf]; exact hx)]
      rw [List.find?_cons_of_pos _ hx] at h
      cases h
      rfl

/-- Claim C7: marking an existing order delivered sets its status to
DELIVERED and stamps `DELIVERED_AT` with the current time; the courier's
availability is restored if and only if the 30-minute cooldown measured
from that freshly written timestamp has already elapsed — which at the
moment of marking is never, so the courier columns are left unchanged
(in particular an unavailable courier stays unavailable). -/
theorem mark_delivered_spec (st0 : DBState) (now : Int) (oid : Nat)
    (st' : DBState) (ce : Bool)
    (h : mark_delivered st0 now oid = (st', DeliverResult.ok oid ce)) :
    (∃ r ∈ st'.orders, r.orderId = oid ∧ r.deliveredAt = some now ∧
      r.statusId = ((ensure_statuses st0).2 "DELIVERED").getD 0) ∧
    (ce = true ↔ now > now + 30) ∧
    ce = false ∧
    st'.couriers = st0.couriers := by
  obtain ⟨hcust, hprod, hcode, hcour, hord, hoi, hnext⟩ := ensure_statuses_sameCore st0
  rw [mark_delivered] at h
  rcases hfo : (ensure_statuses st0).1.orders.find? (fun o => o.orderId == oid) with _ | o
  · rw [hfo] at h
    cases h
  · rw [hfo] at h
    dsimp only at h
    have hpo := List.find?_some hfo
    have hoid : o.orderId = oid := by simpa using hpo
    have hupd : ((ensure_statuses st0).1.orders.map (fun r =>
        if r.orderId = oid then
          { r with
            statusId := ((ensure_statuses st0).2 "DELIVERED").getD 0
            deliveredAt := some now } else r)).find? (fun o => o.orderId == oid) =
        some (if o.orderId = oid then
          { o with
            statusId := ((ensure_statuses st0).2 "DELIVERED").getD 0
            deliveredAt := some now } else o) := by
      refine find?_map_of_find? _ _ _ (fun x => ?_) hfo
      by_cases hx : x.orderId = oid
      · simp [hx]
      · simp [hx]
    rw [hupd] at h
    rw [if_pos hoid] at h
    have hdec : decide (now > now + 30) = false := by
      rw [decide_eq_false_iff_not]
      omega
    simp only [Option.some_bind, hdec, Bool.false_eq_true, if_false] at h
    rw [Prod.mk.injEq] at h
    obtain ⟨h1, h2⟩ := h
    have hce : ce = false := by
      injection h2 with _ hh
      exact hh.symm
    subst hce
    refine ⟨?_, by simp, rfl, ?_⟩
    · refine ⟨{ o with
        statusId := ((ensure_statuses st0).2 "DELIVERED").getD 0
        deliveredAt := some now }, ?_, hoid, rfl, rfl⟩
      rw [← h1]
      exact List.mem_map.mpr ⟨o, List.mem_of_find?_eq_some hfo, by rw [if_pos hoid]⟩
    · rw [← h1]
      exact hcour

/-- Fixture: one unavailable courier out delivering order 1. -/
def stDeliver : DBState :=
  { customers := [],
    products := [],
    discountCodes := [],
    couriers := [⟨1, false, []⟩],
    statuses := [⟨1, "CREATED"⟩, ⟨2, "IN_PROGRESS"⟩, ⟨3, "OUT_FOR_DELIVERY"⟩, ⟨4, "DELIVERED"⟩],
    orders := [⟨1, 0, 10, none, 1, 3, 1, none⟩],
    orderItems := [],
    nextStatusId := 5,
    nextOrderId := 2 }

/-- `stDeliver` after `mark_delivered _ 5 1`: order 1 is DELIVERED with
timestamp 5, the courier still unavailable. -/
def stDelivered : DBState :=
  { stDeliver with orders := [⟨1, 0, 10, none, 1, 4, 1, some 5⟩] }

theorem mark_delivered_spec_witness :
    (∃ r ∈ stDelivered.orders, r.orderId = 1 ∧ r.deliveredAt = some 5 ∧
      r.statusId = ((ensure_statuses stDeliver).2 "DELIVERED").getD 0) ∧
    (false = true ↔ (5 : Int) > 5 + 30) ∧
    (false : Bool) = false ∧
    stDelivered.couriers = stDeliver.couriers :=
  mark_delivered_spec stDeliver 5 1 stDelivered false (by with_unfolding_all decide)

/-! ### Discount codes are single use (claim C6) -/

/-- Row-wise relation: same code row, and a used flag is never reset. -/
def usedMono (c0 c1 : DiscountCode) : Prop :=
  c1.discountCodeId = c0.discountCodeId ∧ c1.code = c0.code ∧
  c1.discountPercent = c0.discountPercent ∧ (c0.isUsed = true → c1.isUsed = true)

theorem forall2_map_self {α : Type} (P : α → α → Prop) (f : α → α) (l : List α)
    (h : ∀ x, P x (f x)) : List.Forall₂ P l (l.map f) := by
  induction l with
  | nil => exact List.Forall₂.nil
  | cons x xs ih => exact List.Forall₂.cons (h x) ih

theorem forall2_refl_usedMono (l : List DiscountCode) : List.Forall₂ usedMono l l := by
  induction l with
  | nil => exact List.Forall₂.nil
  | cons x xs ih => exact List.Forall₂.cons ⟨rfl, rfl, rfl, fun h => h⟩ ih

theorem consume_code_usedMono (st : DBState) (code_input : String) :
    List.Forall₂ usedMono st.discountCodes (consume_code st code_input).1.discountCodes := by
  rw [consume_code]
  by_cases hci : code_input = ""
  · rw [if_pos hci]
    exact forall2_refl_usedMono _
  · rw [if_neg hci]
    rcases hl : lookup_unused_code st code_input with _ | d
    · exact forall2_refl_usedMono _
    · refine forall2_map_self _ _ _ (fun c => ?_)
      by_cases hc : c.discountCodeId = d.discountCodeId
      · rw [if_pos hc]
        exact ⟨rfl, rfl, rfl, fun _ => rfl⟩
      · rw [if_neg hc]
        exact ⟨rfl, rfl, rfl, fun h => h⟩

/-- Claim C6: a consumed discount code is never un-consumed.  Order
placement only ever raises the used flag (row-wise `usedMono`), marking
an order delivered, the status seeding and adding a customer leave the
`DISCOUNT_CODE` table untouched, and once every row carrying a code
string is used, the code lookup fails, so that code can never again
contribute a discount to an order. -/
theorem discount_code_used_stays_used (st0 : DBState) :
    (∀ now today cust_in items code_input,
      List.Forall₂ usedMono st0.discountCodes
        (place_order st0 now today cust_in items code_input).1.discountCodes) ∧
    (∀ now oid, (mark_delivered st0 now oid).1.discountCodes = st0.discountCodes) ∧
    ((ensure_statuses st0).1.discountCodes = st0.discountCodes) ∧
    (∀ first last bdate addr phone ok bm bd,
      (add_customer st0 first last bdate addr phone ok bm bd).1.discountCodes =
        st0.discountCodes) ∧
    (∀ code_in, code_in ≠ "" →
      (∀ d ∈ st0.discountCodes, d.code = code_in → d.isUsed = true) →
      consume_code st0 code_in = (st0, none, 0)) := by
  obtain ⟨hcust, hprod, hcode, hcour, hord, hoi, hnext⟩ := ensure_statuses_sameCore st0
  have base : List.Forall₂ usedMono st0.discountCodes
      (ensure_statuses st0).1.discountCodes := by
    rw [hcode]
    exact forall2_refl_usedMono _
  refine ⟨?_, ?_, hcode, ?_, ?_⟩
  · intro now today cust_in items code_input
    rw [place_order]
    rcases hfc : find_customer (ensure_statuses st0).1 cust_in with _ | cust
    · exact base
    · rcases items with _ | ⟨it, rest⟩
      · exact base
      · dsimp only
        rcases hass : assign_delivery_person (ensure_statuses st0).1 now
            (extract_postal_pfx cust.address) with _ | dpid
        · exact base
        · dsimp only
          by_cases hz : dpid = 0
          · rw [if_pos hz]
            exact base
          · rw [if_neg hz]
            rcases hci : compute_items (consume_code (ensure_statuses st0).1 code_input).1
                (it :: rest) with _ | totals
            · exact base
            · dsimp only
              have := consume_code_usedMono (ensure_statuses st0).1 code_input
              rw [hcode] at this
              exact this
  · intro now oid
    rw [mark_delivered]
    rcases hfo : (ensure_statuses st0).1.orders.find? (fun o => o.orderId == oid) with _ | o
    · rw [hfo]
      exact hcode
    · rw [hfo]
      dsimp only
      rw [apply_ite DBState.discountCodes]
      rw [ite_self]
      exact hcode
  · intro first last bdate addr phone ok bm bd
    rw [add_customer]
    by_cases h1 : first = "" ∨ last = ""
    · rw [if_pos h1]
    · rw [if_neg h1]
      by_cases h2 : ok
      · simp [h2]
      · simp [h2]
  · intro code_in hne hall
    rw [consume_code, if_neg hne]
    have hl : lookup_unused_code st0 code_in = none := by
      rw [lookup_unused_code, List.find?_eq_none]
      intro d hd
      by_cases hc : d.code = code_in
      · have := hall d hd hc
        simp [this]
      · simp [hc]
    rw [hl]

/-- Fixture: a store whose only discount code "SAVE" is already used. -/
def stUsedCode : DBState :=
  { customers := [⟨1, "Bob", "Roy", 5, 15, "1234 AB", "p", 0⟩],
    products := [⟨1, "Margherita", "Pizza", 8⟩],
    discountCodes := [⟨1, "SAVE", 20, true⟩],
    couriers := [⟨1, true, ["1234"]⟩],
    statuses := [⟨1, "CREATED"⟩, ⟨2, "IN_PROGRESS"⟩, ⟨3, "OUT_FOR_DELIVERY"⟩, ⟨4, "DELIVERED"⟩],
    orders := [],
    orderItems := [],
    nextStatusId := 5,
    nextOrderId := 1 }

theorem discount_code_used_stays_used_witness :
    consume_code stUsedCode "SAVE" = (stUsedCode, none, 0) :=
  (discount_code_used_stays_used stUsedCode).2.2.2.2 "SAVE" (by decide) (by decide)

/-! ### Invalid or used discount codes (claim C8) -/

theorem apply_discounts_zero_code_labels (base : ℚ) (pc : Nat) (bday : Bool)
    (pz dr : List ℚ) :
    ∀ e ∈ (apply_discounts base pc bday pz dr 0).2,
      e.1 = DiscountLabel.loyalty ∨ e.1 = DiscountLabel.birthdayPizza ∨
        e.1 = DiscountLabel.birthdayDrink := by
  intro e he
  rw [apply_discounts] at he
  dsimp only at he
  rw [if_neg (lt_irrefl (0 : ℚ))] at he
  repeat' split at he
  all_goals simp_all
  all_goals aesop

/-- Claim C8 (amended): a discount code that is unknown or already used
is reported and ignored — order placement proceeds, no discount-code row
is modified, the confirmation carries no code-discount entry, and the
persisted order references no discount code. -/
theorem invalid_code_ignored (st0 : DBState) (now : Int) (today : Nat × Nat)
    (cust_in : String) (items : List (Nat × Nat)) (code_input : String)
    (hcode : lookup_unused_code st0 code_input = none) :
    (place_order st0 now today cust_in items code_input).1.discountCodes =
      st0.discountCodes ∧
    (∀ oid T ds,
      (place_order st0 now today cust_in items code_input).2 =
        PlaceResult.confirmed oid T ds →
      (∀ e ∈ ds, ∀ q, e.1 ≠ DiscountLabel.codePct q) ∧
      ∃ o ∈ (place_order st0 now today cust_in items code_input).1.orders,
        o.orderId = oid ∧ o.discountCodeId = none) := by
  obtain ⟨hcust, hprod, hcodeEq, hcour, hord, hoi, hnext⟩ := ensure_statuses_sameCore st0
  have hconsume : consume_code (ensure_statuses st0).1 code_input =
      ((ensure_statuses st0).1, none, 0) := by
    rw [consume_code]
    by_cases hci : code_input = ""
    · rw [if_pos hci]
    · rw [if_neg hci]
      have : lookup_unused_code (ensure_statuses st0).1 code_input = none := by
        rw [lookup_unused_code, hcodeEq, ← lookup_unused_code, hcode]
      rw [this]
  rw [place_order]
  rcases hfc : find_customer (ensure_statuses st0).1 cust_in with _ | cust
  · exact ⟨hcodeEq, fun oid T ds h => by cases h⟩
  · rcases items with _ | ⟨it, rest⟩
    · exact ⟨hcodeEq, fun oid T ds h => by cases h⟩
    · dsimp only
      rcases hass : assign_delivery_person (ensure_statuses st0).1 now
          (extract_postal_pfx cust.address) with _ | dpid
      · exact ⟨hcodeEq, fun oid T ds h => by cases h⟩
      · dsimp only
        by_cases hz : dpid = 0
        · rw [if_pos hz]
          exact ⟨hcodeEq, fun oid T ds h => by cases h⟩
        · rw [if_neg hz, hconsume]
          dsimp only
          rcases hci : compute_items (ensure_statuses st0).1 (it :: rest) with _ | totals
          · exact ⟨hcodeEq, fun oid T ds h => by cases h⟩
          · dsimp only
            refine ⟨hcodeEq, ?_⟩
            intro oid T ds h
            injection h with h1 h2 h3
            subst h1
            subst h3
            refine ⟨?_, ?_⟩
            · intro e he q
              rcases apply_discounts_zero_code_labels totals.totalBase cust.pizzaCount
                  (cust.birthMonth == today.1 && cust.birthDay == today.2)
                  totals.pizzasPrices totals.drinksPrices e he with h | h | h <;>
                simp [h]
            · exact ⟨⟨(ensure_statuses st0).1.nextOrderId, now, _, none, dpid,
                ((ensure_statuses st0).2 "CREATED").getD 0, cust.customerId, none⟩,
                List.mem_append_right _ (List.mem_singleton.mpr rfl), rfl, rfl⟩

/-- Claim C8, counterexample to the claim as stated: submitting the
already-used code "SAVE" does not abandon order placement — the order is
confirmed and an order row is written. -/
theorem invalid_code_not_aborting :
    (∃ oid T ds, (place_order stUsedCode 0 (1, 1) "1" [(1, 2)] "SAVE").2 =
      PlaceResult.confirmed oid T ds) ∧
    (place_order stUsedCode 0 (1, 1) "1" [(1, 2)] "SAVE").1.orders ≠ stUsedCode.orders := by
  constructor
  · exact ⟨1, 16, [], by with_unfolding_all decide⟩
  · with_unfolding_all decide

theorem invalid_code_ignored_witness :
    (place_order stUsedCode 0 (1, 1) "1" [(1, 2)] "SAVE").1.discountCodes =
      stUsedCode.discountCodes :=
  (invalid_code_ignored stUsedCode 0 (1, 1) "1" [(1, 2)] "SAVE" (by decide)).1

/-! ### Totals and discounts (claims C1, C2) -/

theorem round2_max_congr (x y : ℚ) (h : x = y) :
    max (round2 x) 0 = max (round2 y) 0 := by rw [h]

/-- The final total of `apply_discounts` is nonnegative and equals the
base total plus the sum of the (signed) recorded discount amounts,
rounded to 2 decimals at the end and clamped at 0. -/
theorem apply_discounts_total (base : ℚ) (pc : Nat) (bday : Bool)
    (pz dr : List ℚ) (pct : ℚ) :
    0 ≤ (apply_discounts base pc bday pz dr pct).1 ∧
    (apply_discounts base pc bday pz dr pct).1 =
      max (round2 (base + ((apply_discounts base pc bday pz dr pct).2.map
        Prod.snd).sum)) 0 := by
  constructor
  · rw [apply_discounts]
    dsimp only
    exact le_max_right _ _
  · rw [apply_discounts]
    dsimp only
    repeat' split
    all_goals
      simp only [List.map_append, List.map_cons, List.map_nil, List.sum_append,
        List.sum_cons, List.sum_nil]
    all_goals exact round2_max_congr _ _ (by ring)

theorem product_price_and_type_congr {st st' : DBState}
    (h : st.products = st'.products) (pid : Nat) :
    product_price_and_type st pid = product_price_and_type st' pid := by
  rw [product_price_and_type, product_price_and_type, h]

theorem compute_items_go_congr {st st' : DBState} (h : st.products = st'.products)
    (items : List (Nat × Nat)) (acc : ItemTotals) :
    compute_items_go st acc items = compute_items_go st' acc items := by
  induction items generalizing acc with
  | nil => rfl
  | cons it rest ih =>
    rcases it with ⟨pid, amt⟩
    rw [compute_items_go, compute_items_go, product_price_and_type_congr h pid]
    rcases product_price_and_type st' pid with _ | ⟨price, ptype, pname⟩
    · rfl
    · exact ih _

theorem compute_items_congr {st st' : DBState} (h : st.products = st'.products)
    (items : List (Nat × Nat)) :
    compute_items st items = compute_items st' items := by
  rw [compute_items, compute_items]
  exact compute_items_go_congr h items _

theorem consume_code_others (st : DBState) (ci : String) :
    (consume_code st ci).1.products = st.products ∧
    (consume_code st ci).1.orders = st.orders ∧
    (consume_code st ci).1.nextOrderId = st.nextOrderId := by
  rw [consume_code]
  by_cases hci : ci = ""
  · rw [if_pos hci]
    exact ⟨rfl, rfl, rfl⟩
  · rw [if_neg hci]
    rcases lookup_unused_code st ci with _ | d
    · exact ⟨rfl, rfl, rfl⟩
    · exact ⟨rfl, rfl, rfl⟩

/-- Claim C1 (amended): for every confirmed order the final total is
≥ 0 and equals the base total plus the sum of the recorded signed
discount amounts, rounded to 2 decimals once at the end and clamped at
0 (`max(round(·, 2), 0)`); the persisted order row carries exactly this
total. -/
theorem place_order_total_spec (st0 : DBState) (now : Int) (today : Nat × Nat)
    (cust_in : String) (items : List (Nat × Nat)) (code_input : String)
    (st' : DBState) (oid : Nat) (T : ℚ) (ds : List (DiscountLabel × ℚ))
    (h : place_order st0 now today cust_in items code_input =
      (st', PlaceResult.confirmed oid T ds)) :
    0 ≤ T ∧
    (∃ totals, compute_items st0 items = some totals ∧
      T = max (round2 (totals.totalBase + (ds.map Prod.snd).sum)) 0) ∧
    ∃ o ∈ st'.orders, o.orderId = oid ∧ o.totalPrice = T := by
  obtain ⟨hcust, hprod, hcodeEq, hcour, hord, hoi, hnext⟩ := ensure_statuses_sameCore st0
  rw [place_order] at h
  rcases hfc : find_customer (ensure_statuses st0).1 cust_in with _ | cust <;> rw [hfc] at h
  · simp at h
  · rcases items with _ | ⟨it, rest⟩
    · simp at h
    · dsimp only at h
      rcases hass : assign_delivery_person (ensure_statuses st0).1 now
          (extract_postal_pfx cust.address) with _ | dpid <;> rw [hass] at h
      · simp at h
      · dsimp only at h
        by_cases hz : dpid = 0
        · rw [if_pos hz] at h
          simp at h
        · rw [if_neg hz] at h
          rcases hci : compute_items
              (consume_code (ensure_statuses st0).1 code_input).1 (it :: rest)
              with _ | totals <;> rw [hci] at h
          · simp at h
          · dsimp only at h
            rw [Prod.mk.injEq] at h
            obtain ⟨h1, h2⟩ := h
            injection h2 with e1 e2 e3
            have hspec := apply_discounts_total totals.totalBase cust.pizzaCount
              (cust.birthMonth == today.1 && cust.birthDay == today.2)
              totals.pizzasPrices totals.drinksPrices
              (consume_code (ensure_statuses st0).1 code_input).2.2
            refine ⟨?_, ⟨totals, ?_, ?_⟩, ?_⟩
            · rw [← e2]
              exact hspec.1
            · rw [← hci]
              refine compute_items_congr ?_ _
              rw [(consume_code_others _ _).1, hprod]
            · rw [← e2, ← e3]
              exact hspec.2
            · rw [← h1]
              refine ⟨_, List.mem_append_right _ (List.mem_singleton.mpr rfl), e1, e2⟩

/-- Fixture for the spec's worked example: prior pizza count 12,
pizzas at 8.00 and 10.00, a drink at 3.00, ordering on the birthday. -/
def stBirthday : DBState :=
  { customers := [⟨1, "Ann", "Lee", 5, 15, "1234 AB", "p", 12⟩],
    products := [⟨1, "Margherita", "Pizza", 8⟩, ⟨2, "Hawaii", "Pizza", 10⟩,
      ⟨3, "Cola", "Drink", 3⟩],
    discountCodes := [],
    couriers := [⟨1, true, ["1234"]⟩],
    statuses := [⟨1, "CREATED"⟩, ⟨2, "IN_PROGRESS"⟩, ⟨3, "OUT_FOR_DELIVERY"⟩, ⟨4, "DELIVERED"⟩],
    orders := [],
    orderItems := [],
    nextStatusId := 5,
    nextOrderId := 1 }

/-- `stBirthday` after the example order: pizza count 14, courier
unavailable, one order at 7.90 with its three items. -/
def stBirthdayAfter : DBState :=
  { customers := [⟨1, "Ann", "Lee", 5, 15, "1234 AB", "p", 14⟩],
    products := [⟨1, "Margherita", "Pizza", 8⟩, ⟨2, "Hawaii", "Pizza", 10⟩,
      ⟨3, "Cola", "Drink", 3⟩],
    discountCodes := [],
    couriers := [⟨1, false, ["1234"]⟩],
    statuses := [⟨1, "CREATED"⟩, ⟨2, "IN_PROGRESS"⟩, ⟨3, "OUT_FOR_DELIVERY"⟩, ⟨4, "DELIVERED"⟩],
    orders := [⟨1, 0, 79 / 10, none, 1, 1, 1, none⟩],
    orderItems := [⟨1, 1, 1⟩, ⟨1, 2, 1⟩, ⟨1, 3, 1⟩],
    nextStatusId := 5,
    nextOrderId := 2 }

/-- Claim C2: the worked discount example.  Base 21.00; the 10% loyalty
cut is 2.10 leaving 18.90; the free cheapest pizza takes 8.00 leaving
10.90; the free cheapest drink takes 3.00, and the final total is
exactly 7.90 — both in `apply_discounts` and end-to-end through
`place_order`. -/
theorem place_order_birthday_example :
    (compute_items stBirthday [(1, 1), (2, 1), (3, 1)]).map ItemTotals.totalBase =
      some 21 ∧
    (compute_items stBirthday [(1, 1), (2, 1), (3, 1)]).map ItemTotals.pizzasPrices =
      some [8, 10] ∧
    (compute_items stBirthday [(1, 1), (2, 1), (3, 1)]).map ItemTotals.drinksPrices =
      some [3] ∧
    round2 ((21 : ℚ) * (10 / 100)) = 21 / 10 ∧
    (21 : ℚ) - 21 / 10 = 189 / 10 ∧
    (189 / 10 : ℚ) - 8 = 109 / 10 ∧
    (109 / 10 : ℚ) - 3 = 79 / 10 ∧
    apply_discounts 21 12 true [8, 10] [3] 0 =
      (79 / 10, [(DiscountLabel.loyalty, -(21 / 10)),
        (DiscountLabel.birthdayPizza, -8), (DiscountLabel.birthdayDrink, -3)]) ∧
    place_order stBirthday 0 (5, 15) "1" [(1, 1), (2, 1), (3, 1)] "" =
      (stBirthdayAfter, PlaceResult.confirmed 1 (79 / 10)
        [(DiscountLabel.loyalty, -(21 / 10)), (DiscountLabel.birthdayPizza, -8),
          (DiscountLabel.birthdayDrink, -3)]) := by
  refine ⟨?_, ?_, ?_, ?_, ?_, ?_, ?_, ?_, ?_⟩ <;> with_unfolding_all decide

theorem place_order_total_spec_witness :
    0 ≤ (79 / 10 : ℚ) ∧
    (∃ totals, compute_items stBirthday [(1, 1), (2, 1), (3, 1)] = some totals ∧
      (79 / 10 : ℚ) = max (round2 (totals.totalBase +
        (([(DiscountLabel.loyalty, -(21 / 10 : ℚ)), (DiscountLabel.birthdayPizza, -8),
          (DiscountLabel.birthdayDrink, -3)]).map Prod.snd).sum)) 0) ∧
    ∃ o ∈ stBirthdayAfter.orders, o.orderId = 1 ∧ o.totalPrice = (79 / 10 : ℚ) :=
  place_order_total_spec stBirthday 0 (5, 15) "1" [(1, 1), (2, 1), (3, 1)] ""
    stBirthdayAfter 1 (79 / 10)
    [(DiscountLabel.loyalty, -(21 / 10)), (DiscountLabel.birthdayPizza, -8),
      (DiscountLabel.birthdayDrink, -3)]
    (by with_unfolding_all decide)

/-- Fixture for the clamping counterexample: prior pizza count 12, one
pizza at 8.00 and one drink at 3.00, ordered on the birthday. -/
def stClamp : DBState :=
  { customers := [⟨1, "Ann", "Lee", 5, 15, "1234 AB", "p", 12⟩],
    products := [⟨1, "Margherita", "Pizza", 8⟩, ⟨2, "Cola", "Drink", 3⟩],
    discountCodes := [],
    couriers := [⟨1, true, ["1234"]⟩],
    statuses := [⟨1, "CREATED"⟩, ⟨2, "IN_PROGRESS"⟩, ⟨3, "OUT_FOR_DELIVERY"⟩, ⟨4, "DELIVERED"⟩],
    orders := [],
    orderItems := [],
    nextStatusId := 5,
    nextOrderId := 1 }

/-- Claim C1, counterexample to the claim as stated: on a birthday order
of one 8.00 pizza and one 3.00 drink with prior pizza count 12, the
independently rounded deductions sum to 12.10 against a base of 11.00,
and the code clamps the final total to 0 — so the final total does not
equal base minus the sum of the rounded deductions (which is −1.10). -/
theorem place_order_claimed_equality_fails :
    (place_order stClamp 0 (5, 15) "1" [(1, 1), (2, 1)] "").2 =
      PlaceResult.confirmed 1 0 [(DiscountLabel.loyalty, -(11 / 10)),
        (DiscountLabel.birthdayPizza, -8), (DiscountLabel.birthdayDrink, -3)] ∧
    round2 ((11 : ℚ) * (10 / 100)) + round2 (8 : ℚ) + round2 (3 : ℚ) = 121 / 10 ∧
    (11 : ℚ) - 121 / 10 = -(11 / 10) ∧
    (0 : ℚ) ≠ (11 : ℚ) -
      (round2 ((11 : ℚ) * (10 / 100)) + round2 (8 : ℚ) + round2 (3 : ℚ)) := by
  refine ⟨?_, ?_, ?_, ?_⟩ <;> with_unfolding_all decide

/-! ### Postal prefix extraction (claim C9) -/

theorem four_digit_scan_some (l : List Char) : ∀ w, four_digit_scan l = some w →
    (w.length = 4 ∧ ∀ ch ∈ w, ch.isDigit = true) ∧
    ∃ pre suf, l = pre ++ w ++ suf ∧
      ∀ pre' w' suf', l = pre' ++ w' ++ suf' → w'.length = 4 →
        (∀ ch ∈ w', ch.isDigit = true) → pre.length ≤ pre'.length := by
  induction l with
  | nil => intro w h; simp [four_digit_scan] at h
  | cons a tl ih =>
    rcases tl with _ | ⟨b, tl2⟩
    · intro w h; simp [four_digit_scan] at h
    rcases tl2 with _ | ⟨c, tl3⟩
    · intro w h; simp [four_digit_scan] at h
    rcases tl3 with _ | ⟨d, rest⟩
    · intro w h; simp [four_digit_scan] at h
    intro w h
    rw [four_digit_scan] at h
    by_cases g : (a.isDigit && b.isDigit && c.isDigit && d.isDigit) = true
    · rw [if_pos g] at h
      injection h with hw
      subst hw
      rw [Bool.and_eq_true, Bool.and_eq_true, Bool.and_eq_true] at g
      obtain ⟨⟨⟨ga, gb⟩, gc⟩, gd⟩ := g
      refine ⟨⟨rfl, ?_⟩, [], rest, rfl, fun pre' w' suf' _ _ _ => Nat.zero_le _⟩
      intro ch hch
      simp only [List.mem_cons, List.not_mem_nil, or_false] at hch
      rcases hch with rfl | rfl | rfl | rfl
      · exact ga
      · exact gb
      · exact gc
      · exact gd
    · rw [if_neg g] at h
      obtain ⟨wprops, pre_t, suf_t, heq_t, hmin_t⟩ := ih w h
      refine ⟨wprops, a :: pre_t, suf_t, by rw [heq_t]; simp, ?_⟩
      intro pre' w' suf' heq' hlen' hdig'
      rcases pre' with _ | ⟨a', pre''⟩
      · exfalso
        rw [List.nil_append] at heq'
        have hw' : w' = [a, b, c, d] := by
          have ht : (w' ++ suf').take 4 = w' := by
            rw [← hlen']
            exact List.take_left w' suf'
          rw [← heq'] at ht
          exact ht.symm
        subst hw'
        apply g
        simp only [Bool.and_eq_true]
        exact ⟨⟨⟨hdig' a (by simp), hdig' b (by simp)⟩, hdig' c (by simp)⟩,
          hdig' d (by simp)⟩
      · rw [List.cons_append] at heq'
        injection heq' with ha htail
        have := hmin_t pre'' w' suf' htail hlen' hdig'
        simpa using Nat.succ_le_succ this

theorem four_digit_scan_none (l : List Char) : four_digit_scan l = none →
    ∀ pre w suf, l = pre ++ w ++ suf → w.length = 4 →
      ¬(∀ ch ∈ w, ch.isDigit = true) := by
  induction l with
  | nil =>
    intro _ pre w suf heq hlen _
    have := congrArg List.length heq
    simp [hlen] at this
    omega
  | cons a tl ih =>
    rcases tl with _ | ⟨b, tl2⟩
    · intro _ pre w suf heq hlen _
      have := congrArg List.length heq
      simp [hlen] at this
      omega
    rcases tl2 with _ | ⟨c, tl3⟩
    · intro _ pre w suf heq hlen _
      have := congrArg List.length heq
      simp [hlen] at this
      omega
    rcases tl3 with _ | ⟨d, rest⟩
    · intro _ pre w suf heq hlen _
      have := congrArg List.length heq
      simp [hlen] at this
      omega
    intro h pre w suf heq hlen hdig
    rw [four_digit_scan] at h
    by_cases g : (a.isDigit && b.isDigit && c.isDigit && d.isDigit) = true
    · rw [if_pos g] at h
      cases h
    · rw [if_neg g] at h
      rcases pre with _ | ⟨a', pre'⟩
      · rw [List.nil_append] at heq
        have hw : w = [a, b, c, d] := by
          have ht : (w ++ suf).take 4 = w := by
            rw [← hlen]
            exact List.take_left w suf
          rw [← heq] at ht
          exact ht.symm
        subst hw
        apply g
        simp only [Bool.and_eq_true]
        exact ⟨⟨⟨hdig a (by simp), hdig b (by simp)⟩, hdig c (by simp)⟩,
          hdig d (by simp)⟩
      · rw [List.cons_append] at heq
        injection heq with ha htail
        exact ih h pre' w suf htail hlen hdig

/-- Claim C9: `extract_postal_prefix` is a total function of the
address: it returns `none` on the empty address and exactly when the
address has no window of 4 consecutive digits; otherwise it returns the
leftmost such window, which consists of exactly 4 digit characters. -/
theorem extract_postal_spec (s : String) :
    (s = "" → extract_postal_pfx s = none) ∧
    (∀ p, extract_postal_pfx s = some p →
      p.length = 4 ∧ ∀ ch ∈ p.toList, ch.isDigit = true) ∧
    (extract_postal_pfx s = none ↔
      ¬∃ pre w suf, s.toList = pre ++ w ++ suf ∧ w.length = 4 ∧
        ∀ ch ∈ w, ch.isDigit = true) ∧
    (∀ p, extract_postal_pfx s = some p →
      ∃ pre suf, s.toList = pre ++ p.toList ++ suf ∧
        ∀ pre' w' suf', s.toList = pre' ++ w' ++ suf' → w'.length = 4 →
          (∀ ch ∈ w', ch.isDigit = true) → pre.length ≤ pre'.length) := by
  refine ⟨?_, ?_, ?_, ?_⟩
  · intro h
    rw [extract_postal_pfx, if_pos h]
  · intro p hp
    rw [extract_postal_pfx] at hp
    by_cases hs : s = ""
    · rw [if_pos hs] at hp
      cases hp
    · rw [if_neg hs] at hp
      rcases hscan : four_digit_scan s.toList with _ | w <;> rw [hscan] at hp
      · cases hp
      · injection hp with hps
        obtain ⟨⟨hlen, hdig⟩, _⟩ := four_digit_scan_some s.toList w hscan
        subst hps
        exact ⟨hlen, hdig⟩
  · by_cases hs : s = ""
    · subst hs
      rw [extract_postal_pfx, if_pos rfl]
      simp only [true_iff]
      rintro ⟨pre, w, suf, heq, hlen, _⟩
      have := congrArg List.length heq
      simp [hlen] at this
      omega
    · rw [extract_postal_pfx, if_neg hs]
      rcases hscan : four_digit_scan s.toList with _ | w
      · constructor
        · intro _
          rintro ⟨pre, w, suf, heq, hlen, hdig⟩
          exact four_digit_scan_none s.toList hscan pre w suf heq hlen hdig
        · intro _
          rfl
      · constructor
        · intro hx
          cases hx
        · intro hnot
          obtain ⟨⟨hlen, hdig⟩, pre, suf, heq, _⟩ :=
            four_digit_scan_some s.toList w hscan
          exact absurd ⟨pre, w, suf, heq, hlen, hdig⟩ hnot
  · intro p hp
    rw [extract_postal_pfx] at hp
    by_cases hs : s = ""
    · rw [if_pos hs] at hp
      cases hp
    · rw [if_neg hs] at hp
      rcases hscan : four_digit_scan s.toList with _ | w <;> rw [hscan] at hp
      · cases hp
      · injection hp with hps
        obtain ⟨_, pre, suf, heq, hmin⟩ := four_digit_scan_some s.toList w hscan
        subst hps
        exact ⟨pre, suf, heq, hmin⟩

theorem extract_postal_spec_witness :
    ("Keizersgracht 12, 1017 AB" ≠ "") ∧
    (("1017" : String).length = 4 ∧ ∀ ch ∈ ("1017" : String).toList, ch.isDigit = true) :=
  ⟨by decide,
   (extract_postal_spec "Keizersgracht 12, 1017 AB").2.1 "1017" (by decide)⟩

end PizzaApp
